import Mathlib

/-!
Shallow embedding of the data-transformation code of the zenodo-rdm
repository fragment:

* `site/zenodo_rdm/migrator/transform/records.py` — the legacy-to-RDM
  migration transform (`ZenodoRecordEntry`, `ZenodoRecordTransform`);
* `site/zenodo_rdm/legacy/serializers/schemas/legacyjson.py` — the legacy
  JSON serializer schemas (`MetadataSchema`, `LegacySchema`).

Python dictionaries with a fixed set of relevant keys are modelled as Lean
structures; a key that the code reads with `.get(...)` (so it may be
absent) becomes an `Option` field.  Python `None` is `Option.none`;
truthiness tests on strings and lists are explicit emptiness tests; an
uncaught Python exception (`KeyError`, `AttributeError`, `IndexError`) is
modelled as `Except.error ()`.  External vocabulary services and the
`FUNDER_ROR_TO_DOI` table are parameters of the embedding.
-/

/-! ## Migration transform: `migrator/transform/records.py` -/

/-- The parts of a legacy record's `json` column that the transform
functions under scrutiny read (`records.py`). -/
structure RecordJson where
  conceptrecid : String
  owners : Option (List Nat)
  communities : Option (List String)
  access_right : String
  embargo_date : String
  deriving Repr, DecidableEq

/-- A legacy database entry as consumed by the record transform. -/
structure Entry where
  created : String
  updated : String
  version_id : Nat
  index : Option Nat
  json : RecordJson
  deriving Repr, DecidableEq

/-- An embargo sub-dictionary of the produced access dictionary. -/
structure Embargo where
  «until» : String
  active : Bool
  deriving Repr, DecidableEq

/-- The access dictionary produced by `ZenodoRecordEntry._access`:
keys `record`, `files`, and optionally `embargo`. -/
structure AccessOut where
  record : String
  files : String
  embargo : Option Embargo
  deriving Repr, DecidableEq

namespace ZenodoRecordEntry

/-- Embedding of `ZenodoRecordEntry._index`: `entry.get("index", 0) + 1`. -/
def _index (entry : Entry) : Nat :=
  entry.index.getD 0 + 1

/-- The files flag produced by `ZenodoRecordEntry._files`. -/
structure FilesFlag where
  enabled : Bool
  deriving Repr, DecidableEq

/-- Embedding of `ZenodoRecordEntry._files`: returns `{"enabled": True}`. -/
def _files (_entry : Entry) : FilesFlag :=
  { enabled := true }

/-- Embedding of `ZenodoRecordEntry._access`. -/
def _access (entry : Entry) : AccessOut :=
  let record := entry.json
  let is_open := record.access_right = "open"
  let r : AccessOut :=
    { record := "public"
      files := if is_open then "public" else "restricted"
      embargo := none }
  if record.access_right = "embargoed" then
    { r with embargo := some { «until» := record.embargo_date, active := true } }
  else
    r

end ZenodoRecordEntry

/-- The `{"ids": [slug], "default": slug}` dictionary returned by
`ZenodoRecordTransform._community_id`; the empty-dict return is the
`none` of an `Option` around this structure. -/
structure CommunityIds where
  ids : List String
  default : String
  deriving Repr, DecidableEq

/-- An `{"user": o}` element of the parent's `access.owned_by` list. -/
structure OwnedBy where
  user : Nat
  deriving Repr, DecidableEq

/-- The `json` part of the parent produced by
`ZenodoRecordTransform._parent`. -/
structure ParentJson where
  id : String
  owned_by : List OwnedBy
  communities : Option CommunityIds
  deriving Repr, DecidableEq

/-- The parent dictionary produced by `ZenodoRecordTransform._parent`. -/
structure Parent where
  created : String
  updated : String
  version_id : Nat
  json : ParentJson
  deriving Repr, DecidableEq

namespace ZenodoRecordTransform

/-- Embedding of `ZenodoRecordTransform._community_id`: uses `communities[0]` when the
list is truthy, returns the truthy slug's dictionary, else the empty
dictionary (`none`). -/
def _community_id (entry : Entry) : Option CommunityIds :=
  match entry.json.communities with
  | none => none
  | some [] => none
  | some (slug :: _) =>
      if slug = "" then none else some { ids := [slug], default := slug }

/-- Embedding of `ZenodoRecordTransform._parent`. -/
def _parent (entry : Entry) : Parent :=
  { created := entry.created
    updated := entry.updated
    version_id := entry.version_id
    json :=
      { id := entry.json.conceptrecid
        owned_by := (entry.json.owners.getD []).map (fun o => { user := o })
        communities := _community_id entry } }

/-- Embedding of `ZenodoRecordTransform._draft`: returns `None`. -/
def _draft (_entry : Entry) : Option Unit :=
  none

/-- Embedding of `ZenodoRecordTransform._draft_files`: returns `None`. -/
def _draft_files (_entry : Entry) : Option Unit :=
  none

end ZenodoRecordTransform

/-! ## Legacy serializer: `LegacySchema.dump_state` -/

/-- The two record flags that `LegacySchema.dump_state` reads. -/
structure StateObj where
  is_published : Bool
  is_draft : Bool
  deriving Repr, DecidableEq

namespace LegacySchema

/-- Embedding of `LegacySchema.dump_state`: `state = "unsubmitted"`, overwritten with
`"done"` when published, then with `"inprogress"` when also a draft. -/
def dump_state (obj : StateObj) : String :=
  if obj.is_published then
    if obj.is_draft then "inprogress" else "done"
  else
    "unsubmitted"

end LegacySchema

/-! ## Legacy serializer: `MetadataSchema.dump_grants`

The awards and funders vocabulary services and the `FUNDER_ROR_TO_DOI`
table are external collaborators; they are parameters of the embedding
(`GrantsEnv`).  A service read that raises `PIDDeletedError` or
`PIDDoesNotExistError` is `Except.error ()`. -/

/-- An award dictionary: either the `award` sub-dictionary of a funding
item, or the dictionary returned by the awards service.  A field read
with `["..."]` on a dictionary lacking the key raises `KeyError`, hence
the `Option` fields. -/
structure AwardObj where
  id : Option String
  funderId : Option String
  number : Option String
  deriving Repr, DecidableEq

/-- A funder dictionary as returned by the funders service. -/
structure FunderObj where
  id : String
  deriving Repr, DecidableEq

/-- One element of a record's `funding` list: an optional `award`
sub-dictionary and the item's own `funder` field (which `dump_grants`
never reads). -/
structure FundingItem where
  award : Option AwardObj
  funder : Option String
  deriving Repr, DecidableEq

/-- A serialized legacy grant `{"id": "<funder_doi>::<award_number>"}`. -/
structure Grant where
  id : String
  deriving Repr, DecidableEq

/-- The external collaborators of `dump_grants`: `awards.read`,
`funders.read` (which, per the code's invariant, cannot fail) and the
`FUNDER_ROR_TO_DOI` lookup table. -/
structure GrantsEnv where
  awards : String → Except Unit AwardObj
  funders : String → FunderObj
  ror_to_doi : String → Option String

/-- Python string interpolation `f"{x}"` of an optional string: `None`
prints as `"None"`. -/
def pystr : Option String → String
  | some s => s
  | none => "None"

/-- Python truthiness of `award.get("id")`: the id must be present and
non-empty to trigger a service read. -/
def truthyId : Option String → Option String
  | some s => if s = "" then none else some s
  | none => none

/-- The `aid`-resolution step of `dump_grants`: when the award has a
truthy `id`, replace the award with the awards-service read (whose
`PIDDeletedError` or `PIDDoesNotExistError` is the `Except.error`);
otherwise keep the funding item's own award dictionary. -/
def resolveAward (env : GrantsEnv) (award : AwardObj) : Except Unit AwardObj :=
  match truthyId award.id with
  | some aid => env.awards aid
  | none => Except.ok award

/-- Outcome of one iteration of the `dump_grants` loop body. -/
inductive ItemStep where
  | crash
  | notFound
  | grant (g : Grant)
  deriving Repr, DecidableEq

/-- One iteration of the `dump_grants` loop: `award = funding_item.get("award")`
(`None.get` raises `AttributeError` → `crash`), resolution through the
awards service (a caught PID error → `notFound`, which makes the whole
dump return `missing`), then `award["funder"]["id"]`, the funders-service
read, `award["number"]`, the `FUNDER_ROR_TO_DOI.get` lookup, and the
serialized grant.  The `legacy_grant = self._award(award)` /
`self._funder(funder)` value built alongside is never used in the
returned grant and is omitted. -/
def processItem (env : GrantsEnv) (item : FundingItem) : ItemStep :=
  match item.award with
  | none => ItemStep.crash
  | some a =>
    match resolveAward env a with
    | Except.error _ => ItemStep.notFound
    | Except.ok award =>
      match award.funderId with
      | none => ItemStep.crash
      | some fid =>
        let funder := env.funders fid
        match award.number with
        | none => ItemStep.crash
        | some award_number =>
          let funder_doi := env.ror_to_doi funder.id
          ItemStep.grant { id := pystr funder_doi ++ "::" ++ award_number }

/-- The `for funding_item in funding` loop of `dump_grants`: `ret`
accumulates serialized grants; a caught PID error returns `missing`
(`Except.ok none`) for the whole field, dropping grants already
accumulated. -/
def grantsLoop (env : GrantsEnv) :
    List FundingItem → List Grant → Except Unit (Option (List Grant))
  | [], ret => Except.ok (some ret)
  | item :: rest, ret =>
    match processItem env item with
    | ItemStep.crash => Except.error ()
    | ItemStep.notFound => Except.ok none
    | ItemStep.grant g => grantsLoop env rest (ret ++ [g])

/-- Embedding of `MetadataSchema.dump_grants`: `obj.get("funding")` is
the `Option (List FundingItem)` argument; an absent or empty (falsy)
funding list returns `missing` (`Except.ok none`) at once. -/
def dump_grants (env : GrantsEnv) (funding : Option (List FundingItem)) :
    Except Unit (Option (List Grant)) :=
  match funding with
  | none => Except.ok none
  | some [] => Except.ok none
  | some items => grantsLoop env items []

/-- A concrete environment for evaluating `dump_grants` on the success
path: every award resolves, every funder echoes its id, and one funder
id has a DOI in the lookup table. -/
def grantsEnvA : GrantsEnv :=
  { awards := fun aid =>
      Except.ok { id := some aid, funderId := some "00k4n6c32", number := some "42" }
    funders := fun fid => { id := fid }
    ror_to_doi := fun fid =>
      if fid = "00k4n6c32" then some "10.13039/501100000780" else none }

/-- A concrete funding list with one item whose award has a truthy id. -/
def fundingA : List FundingItem :=
  [{ award := some { id := some "00k4n6c32::42", funderId := none, number := none }
     funder := some "ignored-funder" }]

/-- A concrete environment in which every awards-service read raises a
PID error. -/
def grantsEnvB : GrantsEnv :=
  { awards := fun _ => Except.error ()
    funders := fun fid => { id := fid }
    ror_to_doi := fun _ => none }

/-- A concrete funding list whose single item triggers an awards-service
read. -/
def fundingB : List FundingItem :=
  [{ award := some { id := some "00mmn6b08::123", funderId := none, number := none }
     funder := none }]

/-! ## Legacy serializer: `dump_resource_type` and `dump_files`

For these two methods the relevant operations are Python string
splitting, so strings are modelled as `List Char` and the mutated
`result` dictionary as an association list with Python dictionary
assignment semantics (overwrite in place, else append). -/

/-- A Python string, as a list of characters. -/
abbrev Str := List Char

/-- Python `s.split(sep)` for a one-character separator. -/
def pySplit (sep : Char) : Str → List Str
  | [] => [[]]
  | c :: cs =>
    match pySplit sep cs with
    | [] => [[]]
    | p :: ps => if c = sep then [] :: p :: ps else (c :: p) :: ps

/-- Python `s.split(sep, 1)` for a one-character separator: split at
most once, at the first occurrence. -/
def pySplitOnce (sep : Char) : Str → List Str
  | [] => [[]]
  | c :: cs =>
    if c = sep then [[], cs]
    else
      match pySplitOnce sep cs with
      | [] => [[]]
      | p :: ps => (c :: p) :: ps

/-- The serializer's `result` dictionary restricted to string values. -/
abbrev Dict := List (Str × Str)

/-- Python `d[k] = v`: overwrite the existing key in place, else append. -/
def dictSet : Dict → Str → Str → Dict
  | [], k, v => [(k, v)]
  | kv :: rest, k, v =>
    if kv.1 = k then (k, v) :: rest else kv :: dictSet rest k v

/-- Python `d.get(k)`. -/
def dictGet : Dict → Str → Option Str
  | [], _ => none
  | kv :: rest, k => if kv.1 = k then some kv.2 else dictGet rest k

/-- Embedding of `MetadataSchema.dump_resource_type` (a `post_dump` hook
with `pass_original=True`): the argument is `original.get("resource_type",
{}).get("id")` and the hook mutates `result`. -/
def dump_resource_type (result : Dict) (resource_type_id : Option Str) : Dict :=
  match resource_type_id with
  | none => result
  | some rid =>
    if rid = [] then result
    else
      let upload_type := (pySplit '-' rid).headD []
      let result1 := dictSet result ("upload_type".toList) upload_type
      if ('-') ∈ rid then
        dictSet result1 (upload_type ++ "_type".toList)
          ((pySplit '-' rid).getLastD [])
      else result1

/-- One value of `obj["files"]["entries"]`. -/
structure FileRec where
  id : Str
  key : Str
  size : Nat
  checksum : Str
  deriving Repr, DecidableEq

/-- The per-file `links` dictionary built by `dump_files`: key `self`
always, key `download` only for a truthy bucket URL. -/
structure FileLinks where
  self : Str
  download : Option Str
  deriving Repr, DecidableEq

/-- One serialized file entry produced by `dump_files`. -/
structure FileOut where
  id : Str
  filename : Str
  filesize : Nat
  checksum : Str
  links : FileLinks
  deriving Repr, DecidableEq

/-- The parts of the record that `LegacySchema.dump_files` reads:
`obj["links"].get("bucket")`, `obj["links"]["files"]` and the values of
`obj["files"]["entries"]`. -/
structure FilesObj where
  bucket : Option Str
  files_url : Str
  entries : List FileRec
  deriving Repr, DecidableEq

/-- Python truthiness of `bucket_url`: present and non-empty. -/
def truthyStr : Option Str → Option Str
  | some s => if s = [] then none else some s
  | none => none

/-- One iteration of the `dump_files` loop body: builds the links
dictionary and the serialized entry; `f["checksum"].split(":", 1)[1]`
raises `IndexError` (→ `Except.error`) when the checksum has no `:`. -/
def serializeFile (bucket_url : Option Str) (files_url : Str) (f : FileRec) :
    Except Unit FileOut :=
  let links : FileLinks :=
    { self := files_url ++ ['/'] ++ f.id
      download := match truthyStr bucket_url with
        | some b => some (b ++ ['/'] ++ f.key)
        | none => none }
  match (pySplitOnce ':' f.checksum)[1]? with
  | none => Except.error ()
  | some ck =>
    Except.ok { id := f.id, filename := f.key, filesize := f.size,
                checksum := ck, links := links }

/-- The `for f in obj["files"]["entries"].values()` loop of
`dump_files`. -/
def dumpFilesLoop (bucket_url : Option Str) (files_url : Str) :
    List FileRec → List FileOut → Except Unit (List FileOut)
  | [], result => Except.ok result
  | f :: rest, result =>
    match serializeFile bucket_url files_url f with
    | Except.error _ => Except.error ()
    | Except.ok fo => dumpFilesLoop bucket_url files_url rest (result ++ [fo])

/-- Embedding of `LegacySchema.dump_files`: `return result or missing`,
so an empty result list becomes `missing` (`Except.ok none`). -/
def dump_files (obj : FilesObj) : Except Unit (Option (List FileOut)) :=
  match dumpFilesLoop obj.bucket obj.files_url obj.entries [] with
  | Except.error _ => Except.error ()
  | Except.ok result => Except.ok (if result = [] then none else some result)

/-- A concrete record for evaluating `dump_files`: one file entry, a
truthy bucket link. -/
def filesObjW : FilesObj :=
  { bucket := some ("https://zenodo.org/api/files/b1".toList)
    files_url := "https://zenodo.org/api/records/1/files".toList
    entries := [{ id := "f1".toList, key := "data.txt".toList, size := 10,
                  checksum := "md5:abc".toList }] }

/-! ## Theorems for claims C3, C5, C6, C7, C9, C10 -/

/-- C3: for every record, `dump_state` returns exactly one of three
values, determined solely by `is_published` and `is_draft`:
`"unsubmitted"` when not published, `"inprogress"` when published and a
draft, `"done"` when published and not a draft. -/
theorem dump_state_cases (obj : StateObj) :
    (LegacySchema.dump_state obj = "unsubmitted" ∨
      LegacySchema.dump_state obj = "inprogress" ∨
      LegacySchema.dump_state obj = "done") ∧
    (obj.is_published = false → LegacySchema.dump_state obj = "unsubmitted") ∧
    (obj.is_published = true → obj.is_draft = true →
      LegacySchema.dump_state obj = "inprogress") ∧
    (obj.is_published = true → obj.is_draft = false →
      LegacySchema.dump_state obj = "done") := by
  obtain ⟨p, d⟩ := obj
  cases p <;> cases d <;> simp [LegacySchema.dump_state]

/-- Witness for C3 at a concrete record. -/
theorem dump_state_cases_witness :
    LegacySchema.dump_state { is_published := true, is_draft := true } =
      "inprogress" :=
  (dump_state_cases { is_published := true, is_draft := true }).2.2.1 rfl rfl

/-- C5: the migration's `_access` always sets record visibility to
`"public"`; files visibility is `"public"` exactly when `access_right`
is `"open"` and `"restricted"` otherwise; an embargo is present exactly
when `access_right` is `"embargoed"`, with `until` the entry's
`embargo_date` and `active` true. -/
theorem access_transform_spec (entry : Entry) :
    (ZenodoRecordEntry._access entry).record = "public" ∧
    (ZenodoRecordEntry._access entry).files =
      (if entry.json.access_right = "open" then "public" else "restricted") ∧
    (ZenodoRecordEntry._access entry).embargo =
      (if entry.json.access_right = "embargoed" then
        some { «until» := entry.json.embargo_date, active := true }
      else none) := by
  unfold ZenodoRecordEntry._access
  by_cases h : entry.json.access_right = "embargoed" <;> simp [h]

/-- C6: the migration's `_parent` copies `created`, `updated` and
`version_id` from the entry, takes the parent id from the entry's json
`conceptrecid`, and builds `access.owned_by` as one `{"user": o}` per
element of the json `owners` list in order, empty when `owners` is
absent. -/
theorem parent_transform_spec (entry : Entry) :
    (ZenodoRecordTransform._parent entry).json.id = entry.json.conceptrecid ∧
    (ZenodoRecordTransform._parent entry).created = entry.created ∧
    (ZenodoRecordTransform._parent entry).updated = entry.updated ∧
    (ZenodoRecordTransform._parent entry).version_id = entry.version_id ∧
    (∀ os, entry.json.owners = some os →
      (ZenodoRecordTransform._parent entry).json.owned_by =
        os.map (fun o => { user := o })) ∧
    (entry.json.owners = none →
      (ZenodoRecordTransform._parent entry).json.owned_by = []) := by
  refine ⟨rfl, rfl, rfl, rfl, ?_, ?_⟩
  · intro os hos
    simp [ZenodoRecordTransform._parent, hos]
  · intro hnone
    simp [ZenodoRecordTransform._parent, hnone]

/-- Witness for C6 at a concrete entry. -/
theorem parent_transform_spec_witness :
    (ZenodoRecordTransform._parent
        { created := "2023-01-01", updated := "2023-01-02", version_id := 4,
          index := some 0,
          json := { conceptrecid := "1234", owners := some [7, 8],
                    communities := none, access_right := "open",
                    embargo_date := "" } }).json.owned_by =
      [{ user := 7 }, { user := 8 }] :=
  (parent_transform_spec
      { created := "2023-01-01", updated := "2023-01-02", version_id := 4,
        index := some 0,
        json := { conceptrecid := "1234", owners := some [7, 8],
                  communities := none, access_right := "open",
                  embargo_date := "" } }).2.2.2.2.1 [7, 8] rfl

/-- C7: the migration's `_index` returns the entry's `index` plus one,
and exactly `1` when `index` is absent. -/
theorem index_transform_spec (entry : Entry) :
    ZenodoRecordEntry._index entry =
      (match entry.index with
        | some i => i + 1
        | none => 1) := by
  unfold ZenodoRecordEntry._index
  cases entry.index <;> rfl

/-- C9: the migration's `_community_id` uses only the first element of
the `communities` list: it returns `{"ids": [slug], "default": slug}`
when the list is non-empty with truthy first element, the empty
dictionary otherwise, and community slugs after the first never affect
the result. -/
theorem community_id_spec :
    (∀ entry slug rest, entry.json.communities = some (slug :: rest) →
      slug ≠ "" →
      ZenodoRecordTransform._community_id entry =
        some { ids := [slug], default := slug }) ∧
    (∀ entry, entry.json.communities = none →
      ZenodoRecordTransform._community_id entry = none) ∧
    (∀ entry, entry.json.communities = some [] →
      ZenodoRecordTransform._community_id entry = none) ∧
    (∀ entry rest, entry.json.communities = some ("" :: rest) →
      ZenodoRecordTransform._community_id entry = none) ∧
    (∀ e₁ e₂ slug rest₁ rest₂,
      e₁.json.communities = some (slug :: rest₁) →
      e₂.json.communities = some (slug :: rest₂) →
      ZenodoRecordTransform._community_id e₁ =
        ZenodoRecordTransform._community_id e₂) := by
  refine ⟨?_, ?_, ?_, ?_, ?_⟩
  · intro entry slug rest h hs
    simp [ZenodoRecordTransform._community_id, h, hs]
  · intro entry h
    simp [ZenodoRecordTransform._community_id, h]
  · intro entry h
    simp [ZenodoRecordTransform._community_id, h]
  · intro entry rest h
    simp [ZenodoRecordTransform._community_id, h]
  · intro e₁ e₂ slug rest₁ rest₂ h₁ h₂
    simp only [ZenodoRecordTransform._community_id, h₁, h₂]

/-- Witness for C9 at a concrete entry: slugs after the first are
dropped. -/
theorem community_id_spec_witness :
    ZenodoRecordTransform._community_id
        { created := "", updated := "", version_id := 0, index := none,
          json := { conceptrecid := "1", owners := none,
                    communities := some ["zenodo", "other"],
                    access_right := "open", embargo_date := "" } } =
      some { ids := ["zenodo"], default := "zenodo" } :=
  community_id_spec.1
    { created := "", updated := "", version_id := 0, index := none,
      json := { conceptrecid := "1", owners := none,
                communities := some ["zenodo", "other"],
                access_right := "open", embargo_date := "" } }
    "zenodo" ["other"] rfl (by decide)

/-- C10: the migration never produces draft data and never carries
per-file metadata into the record's files flag: `_draft` and
`_draft_files` return `None` and `_files` is the constant
`{"enabled": True}` on every entry. -/
theorem migration_no_draft_spec (entry : Entry) :
    ZenodoRecordTransform._draft entry = none ∧
    ZenodoRecordTransform._draft_files entry = none ∧
    ZenodoRecordEntry._files entry = { enabled := true } ∧
    (∀ entry₂ : Entry,
      ZenodoRecordEntry._files entry₂ = ZenodoRecordEntry._files entry) := by
  exact ⟨rfl, rfl, rfl, fun _ => rfl⟩

/-! ## Theorems for claims C1 and C2 -/

/-- Changing a funding item's own `funder` field never changes the
outcome of the loop body: `dump_grants` reads only the `award`. -/
theorem processItem_funder_irrel (env : GrantsEnv) (item : FundingItem)
    (x : Option String) :
    processItem env { item with funder := x } = processItem env item :=
  rfl

/-- Changing the `funder` fields of the funding items never changes the
`dump_grants` loop. -/
theorem grantsLoop_funder_irrel (env : GrantsEnv) (f : FundingItem → Option String) :
    ∀ (items : List FundingItem) (acc : List Grant),
      grantsLoop env (items.map fun it => { it with funder := f it }) acc =
        grantsLoop env items acc
  | [], _ => rfl
  | item :: rest, acc => by
    have h := processItem_funder_irrel env item (f item)
    cases hpi : processItem env item with
    | crash => simp [grantsLoop, h, hpi]
    | notFound => simp [grantsLoop, h, hpi]
    | grant g => simp [grantsLoop, h, hpi, grantsLoop_funder_irrel env f rest]

/-- Changing the `funder` fields of the funding items never changes
`dump_grants`. -/
theorem dump_grants_funder_irrel (env : GrantsEnv)
    (f : FundingItem → Option String) (funding : List FundingItem) :
    dump_grants env (some (funding.map fun it => { it with funder := f it })) =
      dump_grants env (some funding) := by
  cases funding with
  | nil => rfl
  | cons item rest => exact grantsLoop_funder_irrel env f (item :: rest) []

/-- When every loop body iteration produces a grant, the loop returns
them all, appended to the accumulator in order. -/
theorem grantsLoop_ok_of_grants (env : GrantsEnv) :
    ∀ (items : List FundingItem) (acc : List Grant),
      (∀ item ∈ items, ∃ g, processItem env item = ItemStep.grant g) →
      ∃ gs, grantsLoop env items acc = Except.ok (some (acc ++ gs)) ∧
        List.Forall₂ (fun item g => processItem env item = ItemStep.grant g)
          items gs
  | [], acc, _ => ⟨[], by simp [grantsLoop], List.Forall₂.nil⟩
  | item :: rest, acc, h => by
    obtain ⟨g, hg⟩ := h item (by simp)
    obtain ⟨gs, hloop, hfa⟩ := grantsLoop_ok_of_grants env rest (acc ++ [g])
      (fun i hi => h i (by simp [hi]))
    refine ⟨g :: gs, ?_, List.Forall₂.cons hg hfa⟩
    simp [grantsLoop, hg, hloop]

/-- Unfolding of a successful loop body iteration. -/
theorem processItem_grant_eq (env : GrantsEnv) (item : FundingItem)
    (a award : AwardObj) (fid number : String)
    (ha : item.award = some a) (hres : resolveAward env a = Except.ok award)
    (hfid : award.funderId = some fid) (hnum : award.number = some number) :
    processItem env item =
      ItemStep.grant
        { id := pystr (env.ror_to_doi (env.funders fid).id) ++ "::" ++ number } := by
  simp [processItem, ha, hres, hfid, hnum]

/-- C1: on a record with non-empty funding where every award resolves,
`dump_grants` returns one serialized grant per funding item, of the form
`{"id": "<funder_doi>::<award_number>"}` with `award_number` the
resolved award's `number` and `funder_doi` the `FUNDER_ROR_TO_DOI`
lookup of the resolved award's funder id; the funding item's own
`funder` field is never consulted. -/
theorem dump_grants_success_shape (env : GrantsEnv) (funding : List FundingItem)
    (hne : funding ≠ [])
    (hfunders : ∀ fid, (env.funders fid).id = fid)
    (hok : ∀ item ∈ funding, ∃ g, processItem env item = ItemStep.grant g) :
    (∃ gs, dump_grants env (some funding) = Except.ok (some gs) ∧
      List.Forall₂
        (fun item g => ∀ a award fid number,
          item.award = some a → resolveAward env a = Except.ok award →
          award.funderId = some fid → award.number = some number →
          g = { id := pystr (env.ror_to_doi fid) ++ "::" ++ number })
        funding gs) ∧
    (∀ f : FundingItem → Option String,
      dump_grants env (some (funding.map fun it => { it with funder := f it })) =
        dump_grants env (some funding)) := by
  constructor
  · obtain ⟨gs, hloop, hfa⟩ := grantsLoop_ok_of_grants env funding [] hok
    refine ⟨gs, ?_, ?_⟩
    · cases funding with
      | nil => exact absurd rfl hne
      | cons a l => simpa using hloop
    · refine hfa.imp ?_
      intro item g hg a award fid number ha hres hfid hnum
      have hx := processItem_grant_eq env item a award fid number ha hres hfid hnum
      rw [hg] at hx
      have hinj := ItemStep.grant.inj hx
      rw [hfunders fid] at hinj
      exact hinj
  · intro f
    exact dump_grants_funder_irrel env f funding

/-- Witness for C1: a one-item funding list in `grantsEnvA`. -/
theorem dump_grants_success_shape_witness :
    ∃ gs, dump_grants grantsEnvA (some fundingA) = Except.ok (some gs) ∧
      List.Forall₂
        (fun item g => ∀ a award fid number,
          item.award = some a → resolveAward grantsEnvA a = Except.ok award →
          award.funderId = some fid → award.number = some number →
          g = { id := pystr (grantsEnvA.ror_to_doi fid) ++ "::" ++ number })
        fundingA gs :=
  (dump_grants_success_shape grantsEnvA fundingA
    (by simp [fundingA])
    (fun _ => rfl)
    (by
      intro item hmem
      simp only [fundingA, List.mem_singleton] at hmem
      subst hmem
      exact ⟨_, rfl⟩)).1

/-- When no loop body iteration crashes, the loop returns `missing`
exactly when some iteration hits a caught PID error. -/
theorem grantsLoop_none_iff (env : GrantsEnv) :
    ∀ (items : List FundingItem) (acc : List Grant),
      (∀ item ∈ items, processItem env item ≠ ItemStep.crash) →
      (grantsLoop env items acc = Except.ok none ↔
        ∃ item ∈ items, processItem env item = ItemStep.notFound)
  | [], acc, _ => by simp [grantsLoop]
  | item :: rest, acc, h => by
    cases hpi : processItem env item with
    | crash => exact absurd hpi (h item (by simp))
    | notFound =>
      simp only [grantsLoop, hpi]
      exact ⟨fun _ => ⟨item, by simp, hpi⟩, fun _ => trivial⟩
    | grant g =>
      have hiff := grantsLoop_none_iff env rest (acc ++ [g])
        (fun i hi => h i (by simp [hi]))
      simp only [grantsLoop, hpi]
      constructor
      · intro hnone
        obtain ⟨i, hi, hni⟩ := hiff.mp hnone
        exact ⟨i, by simp [hi], hni⟩
      · intro hex
        obtain ⟨i, hi, hni⟩ := hex
        rcases List.mem_cons.mp hi with heq | hmem
        · subst heq
          rw [hpi] at hni
          cases hni
        · exact hiff.mpr ⟨i, hmem, hni⟩

/-- C2: `dump_grants` returns `missing` exactly when the funding list is
absent or empty, or some referenced award read raises a caught PID
error — in which case the whole grants list is dropped, grants already
resolved included. -/
theorem dump_grants_missing_iff (env : GrantsEnv) (funding : List FundingItem)
    (hnc : ∀ item ∈ funding, processItem env item ≠ ItemStep.crash) :
    dump_grants env none = Except.ok none ∧
    (dump_grants env (some funding) = Except.ok none ↔
      funding = [] ∨ ∃ item ∈ funding, processItem env item = ItemStep.notFound) := by
  refine ⟨rfl, ?_⟩
  cases funding with
  | nil => simp [dump_grants]
  | cons a l =>
    have hiff := grantsLoop_none_iff env (a :: l) [] hnc
    constructor
    · intro h
      exact Or.inr (hiff.mp h)
    · intro h
      rcases h with h | h
      · simp at h
      · exact hiff.mpr h

/-- Witness for C2: one funding item whose award read raises a PID
error; the dump returns `missing`. -/
theorem dump_grants_missing_iff_witness :
    dump_grants grantsEnvB (some fundingB) = Except.ok none :=
  (dump_grants_missing_iff grantsEnvB fundingB
      (by
        intro item hmem
        simp only [fundingB, List.mem_singleton] at hmem
        subst hmem
        intro hc
        cases hc)).2.mpr
    (Or.inr ⟨{ award := some { id := some "00mmn6b08::123", funderId := none,
                               number := none }, funder := none },
      by simp [fundingB], rfl⟩)

/-! ## Theorems for claims C4 and C8 -/

/-- Python `split` never returns an empty list. -/
theorem pySplit_ne_nil (sep : Char) : ∀ s : Str, pySplit sep s ≠ []
  | [] => by simp [pySplit]
  | c :: cs => by
    have h := pySplit_ne_nil sep cs
    cases hs : pySplit sep cs with
    | nil => exact absurd hs h
    | cons p ps =>
      by_cases hc : c = sep <;> simp [pySplit, hs, hc]

/-- The first element of a Python `split` is the prefix before the
first separator. -/
theorem pySplit_headD (sep : Char) :
    ∀ s : Str, (pySplit sep s).headD [] =
      s.takeWhile (fun c => decide (c ≠ sep))
  | [] => rfl
  | c :: cs => by
    cases hs : pySplit sep cs with
    | nil => exact absurd hs (pySplit_ne_nil sep cs)
    | cons p ps =>
      have hih := pySplit_headD sep cs
      rw [hs, List.headD_cons] at hih
      by_cases hc : c = sep
      · have h1 : pySplit sep (c :: cs) = [] :: p :: ps := by
          simp [pySplit, hs, hc]
        rw [h1, List.headD_cons, List.takeWhile_cons_of_neg (by simp [hc])]
      · have h1 : pySplit sep (c :: cs) = (c :: p) :: ps := by
          simp [pySplit, hs, hc]
        rw [h1, List.headD_cons, List.takeWhile_cons_of_pos (by simp [hc]), hih]

/-- A string without the separator splits into itself alone. -/
theorem pySplit_of_not_mem (sep : Char) :
    ∀ s : Str, sep ∉ s → pySplit sep s = [s]
  | [], _ => rfl
  | c :: cs, h => by
    have hc : c ≠ sep := fun hc => h (hc ▸ List.mem_cons_self c cs)
    have hcs : sep ∉ cs := fun hm => h (List.mem_cons_of_mem c hm)
    simp [pySplit, pySplit_of_not_mem sep cs hcs, hc]

/-- A string containing the separator splits into at least two parts. -/
theorem pySplit_two_of_mem (sep : Char) :
    ∀ s : Str, sep ∈ s → ∃ p ps, pySplit sep s = p :: ps ∧ ps ≠ []
  | c :: cs, h => by
    by_cases hc : c = sep
    · cases hs : pySplit sep cs with
      | nil => exact absurd hs (pySplit_ne_nil sep cs)
      | cons p ps => exact ⟨[], p :: ps, by simp [pySplit, hs, hc], by simp⟩
    · have hcs : sep ∈ cs := by
        rcases List.mem_cons.mp h with h1 | h1
        · exact absurd h1.symm hc
        · exact h1
      obtain ⟨p, ps, hps, hne⟩ := pySplit_two_of_mem sep cs hcs
      exact ⟨c :: p, ps, by simp [pySplit, hps, hc], hne⟩

/-- Appending an element failing the predicate does not extend a
`takeWhile`. -/
theorem takeWhile_append_false {p : Char → Bool} {x : Char} (hx : p x = false) :
    ∀ l : Str, (l ++ [x]).takeWhile p = l.takeWhile p
  | [] => by simp [List.takeWhile, hx]
  | c :: cs => by
    by_cases hc : p c <;>
      simp [List.takeWhile, hc, takeWhile_append_false hx cs]

/-- A `takeWhile` for "not the separator" stops inside the left part of
an append when the separator occurs there. -/
theorem takeWhile_ne_append_of_mem {sep : Char} :
    ∀ {l : Str}, sep ∈ l → ∀ l₂ : Str,
      (l ++ l₂).takeWhile (fun c => decide (c ≠ sep)) =
        l.takeWhile (fun c => decide (c ≠ sep))
  | c :: cs, h, l₂ => by
    by_cases hc : c = sep
    · rw [List.cons_append, List.takeWhile_cons_of_neg (by simp [hc]),
        List.takeWhile_cons_of_neg (by simp [hc])]
    · have hcs : sep ∈ cs := by
        rcases List.mem_cons.mp h with h1 | h1
        · exact absurd h1.symm hc
        · exact h1
      rw [List.cons_append, List.takeWhile_cons_of_pos (by simp [hc]),
        List.takeWhile_cons_of_pos (by simp [hc]),
        takeWhile_ne_append_of_mem hcs l₂]

/-- The last element of a Python `split` is the suffix after the last
separator (the whole string when the separator is absent). -/
theorem pySplit_getLastD (sep : Char) :
    ∀ s : Str, (pySplit sep s).getLastD [] =
      (s.reverse.takeWhile (fun c => decide (c ≠ sep))).reverse
  | [] => rfl
  | c :: cs => by
    cases hs : pySplit sep cs with
    | nil => exact absurd hs (pySplit_ne_nil sep cs)
    | cons p ps =>
      have hih := pySplit_getLastD sep cs
      rw [hs] at hih
      by_cases hc : c = sep
      · have h1 : pySplit sep (c :: cs) = [] :: p :: ps := by
          simp [pySplit, hs, hc]
        rw [h1, List.getLastD_cons, List.reverse_cons,
          takeWhile_append_false (by simp [hc]) cs.reverse]
        exact hih
      · by_cases hcs : sep ∈ cs
        · obtain ⟨p', ps', hps', hne'⟩ := pySplit_two_of_mem sep cs hcs
          have hpe := hps'.symm.trans hs
          have hne2 : ps ≠ [] := (List.cons.inj hpe).2 ▸ hne'
          have h1 : pySplit sep (c :: cs) = (c :: p) :: ps := by
            simp [pySplit, hs, hc]
          have hlhs : (pySplit sep (c :: cs)).getLastD [] = (p :: ps).getLastD [] := by
            rw [h1]
            cases ps with
            | nil => exact absurd rfl hne2
            | cons a l => simp only [List.getLastD_cons]
          rw [hlhs, hih, List.reverse_cons,
            takeWhile_ne_append_of_mem (List.mem_reverse.mpr hcs)]
        · have hnm : sep ∉ c :: cs := by
            intro hm
            rcases List.mem_cons.mp hm with h1 | h1
            · exact hc h1.symm
            · exact hcs h1
          have hself : (c :: cs).reverse.takeWhile (fun x => decide (x ≠ sep)) =
              (c :: cs).reverse := by
            rw [List.takeWhile_eq_self_iff]
            intro x hx
            simp only [decide_eq_true_eq]
            intro hxsep
            exact hnm (hxsep ▸ List.mem_reverse.mp hx)
          rw [pySplit_of_not_mem sep (c :: cs) hnm, List.getLastD_cons, hself,
            List.reverse_reverse]
          rfl

/-- Looking up the key just assigned returns the assigned value. -/
theorem dictGet_dictSet_self : ∀ (d : Dict) (k v : Str),
    dictGet (dictSet d k v) k = some v
  | [], k, v => by simp [dictSet, dictGet]
  | kv :: rest, k, v => by
    by_cases h : kv.1 = k
    · simp [dictSet, dictGet, h]
    · simp [dictSet, dictGet, h, dictGet_dictSet_self rest k v]

/-- Assigning one key leaves the others unchanged. -/
theorem dictGet_dictSet_ne : ∀ (d : Dict) (k k' v : Str), k ≠ k' →
    dictGet (dictSet d k v) k' = dictGet d k'
  | [], k, k', v, h => by simp [dictSet, dictGet, h]
  | kv :: rest, k, k', v, h => by
    by_cases hk : kv.1 = k
    · simp [dictSet, dictGet, hk, h]
    · by_cases hk' : kv.1 = k'
      · simp [dictSet, dictGet, hk, hk', Ne.symm h]
      · simp [dictSet, dictGet, hk, hk', dictGet_dictSet_ne rest k k' v h]

/-- C4 counterexample: for the resource type id `"upload-dataset"` the
claim fails — the second assignment targets the key
`f"{upload_type}_type" = "upload_type"` itself, so the `upload_type`
field ends up holding the part after the `'-'`, not the part before
it. -/
theorem dump_resource_type_upload_collision :
    dictGet (dump_resource_type [] (some ("upload-dataset".toList)))
        ("upload_type".toList) = some ("dataset".toList) ∧
    ("upload-dataset".toList).takeWhile (fun c => decide (c ≠ '-')) =
      "upload".toList ∧
    ("dataset".toList : Str) ≠ ("upload".toList : Str) := by
  refine ⟨by decide, by decide, by decide⟩

/-- C4 amended: for a non-empty resource type id, `dump_resource_type`
sets `upload_type` to the substring before the first `'-'` and — exactly
when the id contains a `'-'` — sets the field `<upload_type>_type` to
the substring after the last `'-'` (middle segments appear in neither),
*provided* the part before the first `'-'` is not the literal string
`"upload"` (in that case the two assignments share the key
`"upload_type"` and the second overwrites the first); records without a
resource type id are left unchanged. -/
theorem dump_resource_type_amended (result : Dict) (rid : Str)
    (hne : rid ≠ [])
    (hcol : ('-') ∈ rid →
      rid.takeWhile (fun c => decide (c ≠ '-')) ≠ "upload".toList) :
    dictGet (dump_resource_type result (some rid)) ("upload_type".toList) =
      some (rid.takeWhile (fun c => decide (c ≠ '-'))) ∧
    (('-') ∈ rid →
      dictGet (dump_resource_type result (some rid))
          (rid.takeWhile (fun c => decide (c ≠ '-')) ++ "_type".toList) =
        some ((rid.reverse.takeWhile (fun c => decide (c ≠ '-'))).reverse)) ∧
    (('-') ∉ rid →
      dump_resource_type result (some rid) =
        dictSet result ("upload_type".toList)
          (rid.takeWhile (fun c => decide (c ≠ '-')))) ∧
    dump_resource_type result none = result ∧
    dump_resource_type result (some []) = result := by
  have hut := pySplit_headD '-' rid
  have hlast := pySplit_getLastD '-' rid
  by_cases hdash : ('-') ∈ rid
  · have hd : dump_resource_type result (some rid) =
        dictSet (dictSet result ("upload_type".toList) ((pySplit '-' rid).headD []))
          ((pySplit '-' rid).headD [] ++ "_type".toList)
          ((pySplit '-' rid).getLastD []) := by
      simp [dump_resource_type, hne, hdash]
    have hkey : (pySplit '-' rid).headD [] ++ "_type".toList ≠
        ("upload_type".toList : Str) := by
      intro h
      apply hcol hdash
      rw [← hut]
      have h2 : (pySplit '-' rid).headD [] ++ "_type".toList =
          "upload".toList ++ "_type".toList := by
        rw [h]; rfl
      exact List.append_cancel_right h2
    refine ⟨?_, ?_, ?_, rfl, rfl⟩
    · rw [hd, dictGet_dictSet_ne _ _ _ _ hkey, dictGet_dictSet_self, hut]
    · intro _
      rw [hd, ← hut, dictGet_dictSet_self, hlast]
    · intro h
      exact absurd hdash h
  · have hd : dump_resource_type result (some rid) =
        dictSet result ("upload_type".toList) ((pySplit '-' rid).headD []) := by
      simp [dump_resource_type, hne, hdash]
    refine ⟨?_, ?_, ?_, rfl, rfl⟩
    · rw [hd, dictGet_dictSet_self, hut]
    · intro h
      exact absurd h hdash
    · intro _
      rw [hd, hut]

/-- Witness for C4's amended claim at the id `"publication-article"`. -/
theorem dump_resource_type_amended_witness :
    dictGet (dump_resource_type [] (some ("publication-article".toList)))
        ("upload_type".toList) =
      some (("publication-article".toList).takeWhile (fun c => decide (c ≠ '-'))) :=
  (dump_resource_type_amended [] ("publication-article".toList)
    (by decide) (fun _ => by decide)).1

/-- Python `split(sep, 1)` never returns an empty list. -/
theorem pySplitOnce_ne_nil (sep : Char) : ∀ s : Str, pySplitOnce sep s ≠ []
  | [] => by simp [pySplitOnce]
  | c :: cs => by
    have h := pySplitOnce_ne_nil sep cs
    cases hs : pySplitOnce sep cs with
    | nil => exact absurd hs h
    | cons p ps =>
      by_cases hc : c = sep <;> simp [pySplitOnce, hs, hc]

/-- Element `[1]` of a Python `split(sep, 1)` is the suffix after the
first separator, whenever the separator occurs. -/
theorem pySplitOnce_getElem_one (sep : Char) :
    ∀ s : Str, sep ∈ s →
      (pySplitOnce sep s)[1]? =
        some ((s.dropWhile (fun c => decide (c ≠ sep))).drop 1)
  | c :: cs, h => by
    by_cases hc : c = sep
    · have h1 : pySplitOnce sep (c :: cs) = [[], cs] := by
        simp [pySplitOnce, hc]
      rw [h1, List.dropWhile_cons_of_neg (by simp [hc])]
      rfl
    · have hcs : sep ∈ cs := by
        rcases List.mem_cons.mp h with h1 | h1
        · exact absurd h1.symm hc
        · exact h1
      cases hs : pySplitOnce sep cs with
      | nil => exact absurd hs (pySplitOnce_ne_nil sep cs)
      | cons p ps =>
        have hih := pySplitOnce_getElem_one sep cs hcs
        rw [hs] at hih
        have h1 : pySplitOnce sep (c :: cs) = (c :: p) :: ps := by
          simp [pySplitOnce, hs, hc]
        rw [h1, List.dropWhile_cons_of_pos (by simp [hc])]
        rw [List.getElem?_cons_succ] at hih ⊢
        exact hih

/-- Unfolding of a successful `dump_files` loop body iteration: the
checksum keeps only what follows the first `:`, and `download` is
present exactly for a truthy bucket URL. -/
theorem serializeFile_ok (bucket_url : Option Str) (files_url : Str)
    (f : FileRec) (h : (':') ∈ f.checksum) :
    serializeFile bucket_url files_url f =
      Except.ok
        { id := f.id, filename := f.key, filesize := f.size
          checksum := (f.checksum.dropWhile (fun c => decide (c ≠ ':'))).drop 1
          links :=
            { self := files_url ++ ['/'] ++ f.id
              download :=
                match truthyStr bucket_url with
                | some b => some (b ++ ['/'] ++ f.key)
                | none => none } } := by
  simp [serializeFile, pySplitOnce_getElem_one ':' f.checksum h]

/-- The `download` value built by the loop body is present exactly when
the record's links hold a bucket URL (a non-empty string). -/
theorem download_present_iff (bucket_url : Option Str) (key : Str) :
    ((match truthyStr bucket_url with
      | some b => some (b ++ ['/'] ++ key)
      | none => none) ≠ (none : Option Str)) ↔
      ∃ b, bucket_url = some b ∧ b ≠ [] := by
  cases bucket_url with
  | none => simp [truthyStr]
  | some b =>
    by_cases hb : b = []
    · simp [truthyStr, hb]
    · simp [truthyStr, hb]

/-- When every checksum has an algorithm prefix, the `dump_files` loop
serializes every entry in order. -/
theorem dumpFilesLoop_ok (bucket_url : Option Str) (files_url : Str) :
    ∀ (entries : List FileRec) (acc : List FileOut),
      (∀ f ∈ entries, (':') ∈ f.checksum) →
      ∃ l, dumpFilesLoop bucket_url files_url entries acc =
          Except.ok (acc ++ l) ∧
        List.Forall₂
          (fun f fo => serializeFile bucket_url files_url f = Except.ok fo ∧
            (':') ∈ f.checksum) entries l
  | [], acc, _ => ⟨[], by simp [dumpFilesLoop], List.Forall₂.nil⟩
  | f :: rest, acc, h => by
    obtain ⟨fo, hfo⟩ : ∃ fo, serializeFile bucket_url files_url f = Except.ok fo :=
      ⟨_, serializeFile_ok bucket_url files_url f (h f (by simp))⟩
    obtain ⟨l, hl, hfa⟩ := dumpFilesLoop_ok bucket_url files_url rest (acc ++ [fo])
      (fun g hg => h g (by simp [hg]))
    refine ⟨fo :: l, ?_, List.Forall₂.cons ⟨hfo, h f (by simp)⟩ hfa⟩
    have hstep : dumpFilesLoop bucket_url files_url (f :: rest) acc =
        dumpFilesLoop bucket_url files_url rest (acc ++ [fo]) := by
      simp [dumpFilesLoop, hfo]
    rw [hstep, hl]
    simp

/-- C8: `dump_files` serializes each file entry with the checksum's
algorithm prefix (up to and including the first `:`) stripped, includes
a `download` link exactly when the record's links contain a bucket URL,
and returns `missing` when the record has zero file entries. -/
theorem dump_files_spec (obj : FilesObj)
    (hck : ∀ f ∈ obj.entries, (':') ∈ f.checksum) :
    (obj.entries = [] → dump_files obj = Except.ok none) ∧
    (obj.entries ≠ [] →
      ∃ l, dump_files obj = Except.ok (some l) ∧
        List.Forall₂
          (fun f fo =>
            fo.checksum =
              (f.checksum.dropWhile (fun c => decide (c ≠ ':'))).drop 1 ∧
            (fo.links.download ≠ none ↔ ∃ b, obj.bucket = some b ∧ b ≠ []))
          obj.entries l) := by
  constructor
  · intro h
    simp [dump_files, h, dumpFilesLoop]
  · intro hne
    obtain ⟨l, hl, hfa⟩ := dumpFilesLoop_ok obj.bucket obj.files_url obj.entries [] hck
    have hlen := List.Forall₂.length_eq hfa
    have hlne : l ≠ [] := by
      intro h0
      rw [h0] at hlen
      simp only [List.length_nil, List.length_eq_zero] at hlen
      exact hne hlen
    refine ⟨l, ?_, ?_⟩
    · simp [dump_files, hl, hlne]
    · refine List.Forall₂.imp ?_ hfa
      intro f fo hp
      obtain ⟨hser, hmem⟩ := hp
      rw [serializeFile_ok obj.bucket obj.files_url f hmem] at hser
      have hfo := Except.ok.inj hser
      refine ⟨?_, ?_⟩
      · rw [← hfo]
      · rw [← hfo]
        exact download_present_iff obj.bucket f.key

/-- Witness for C8 at a concrete record with one file entry and a truthy
bucket link. -/
theorem dump_files_spec_witness :
    ∃ l, dump_files filesObjW = Except.ok (some l) ∧
      List.Forall₂
        (fun f fo =>
          fo.checksum =
            (f.checksum.dropWhile (fun c => decide (c ≠ ':'))).drop 1 ∧
          (fo.links.download ≠ none ↔ ∃ b, filesObjW.bucket = some b ∧ b ≠ []))
        filesObjW.entries l :=
  (dump_files_spec filesObjW
      (by
        intro f hf
        simp only [filesObjW, List.mem_singleton] at hf
        subst hf
        decide)).2
    (by simp [filesObjW])
